import Mathlib

/-!
# Verification of the batched candy-machine sync engine

Shallow embedding of the batched synchronization engine of this repository:

* `src/js/packages/cli/src/lorelabs-cli-v2.ts` — the `create_candy_machine`
  command action and the `addConfigLines` sync loop (the "v2" engine);
* `src/unnamed/part_000` — the `create_candy_machine_configs` action and its
  own `addConfigLines` sync loop (the "v1" engine).

Remote calls (`anchorProgram.rpc.addConfigLines`, `createCandyMachineV2`) and
cache persistence (`saveCache`) are effectful and fallible; they are modelled
by oracles (`SyncEnv`) giving the outcome of the k-th remote call / k-th save
attempt, and the engine is phrased as explicit state passing over `SyncState`.
The `Promise.all` over outer chunks is modelled by the canonical sequential
schedule (chunks in order, inner batches strictly sequential inside a chunk,
exactly as the source's `for` loop runs them); chunk tasks touch disjoint key
sets, so batch selection and per-record effects are schedule-independent.
-/

/-- Modelled from the spec: the `chunks` helper from `helpers/various` (a file
of this repository that is not under `src/`; only its call sites are).  Per the
spec's Batcher contract it partitions a list into consecutive slices of length
`size`, preserving order, the last slice possibly shorter.  `chunksF` is the
fuel-indexed worker; `chunks` supplies `l.length` fuel, which is always enough
when `size ≠ 0`. -/
def chunksF : Nat → List α → Nat → List (List α)
  | 0, _, _ => []
  | fuel+1, l, size =>
    if l.isEmpty then [] else l.take size :: chunksF fuel (l.drop size) size

/-- The slicing function: `chunks l size` is the consecutive slices of `l` of length `size` (last may be
shorter).  Mirrors `chunks(array, size)` as called at
`lorelabs-cli-v2.ts:166` and `part_000:130`. -/
def chunks (l : List α) (size : Nat) : List (List α) :=
  chunksF l.length l size

theorem chunksF_nil (fuel size : Nat) : chunksF fuel ([] : List α) size = [] := by
  cases fuel <;> simp [chunksF]

theorem chunksF_congr (size : Nat) (hs : size ≠ 0) :
    ∀ (f₁ : Nat) (l : List α) (f₂ : Nat), l.length ≤ f₁ → l.length ≤ f₂ →
      chunksF f₁ l size = chunksF f₂ l size := by
  intro f₁
  induction f₁ with
  | zero =>
    intro l f₂ h₁ _
    have : l = [] := List.length_eq_zero.mp (Nat.le_zero.mp h₁)
    subst this
    simp [chunksF_nil]
  | succ f ih =>
    intro l f₂ h₁ h₂
    cases l with
    | nil => simp [chunksF_nil]
    | cons a t =>
      cases f₂ with
      | zero => simp at h₂
      | succ g =>
        simp only [List.length_cons] at h₁ h₂
        have hs1 : 1 ≤ size := Nat.one_le_iff_ne_zero.mpr hs
        simp only [chunksF, List.isEmpty_cons, if_false, Bool.false_eq_true]
        have hd : ((a :: t).drop size).length ≤ f := by
          simp only [List.length_drop, List.length_cons]; omega
        have hd₂ : ((a :: t).drop size).length ≤ g := by
          simp only [List.length_drop, List.length_cons]; omega
        rw [ih _ _ hd hd₂]

theorem chunks_nil (size : Nat) : chunks ([] : List α) size = [] := by
  simp [chunks, chunksF_nil]

/-- One-step unfolding of `chunks` on a non-empty list with positive size. -/
theorem chunks_cons (l : List α) (size : Nat) (hl : l ≠ []) (hs : size ≠ 0) :
    chunks l size = l.take size :: chunks (l.drop size) size := by
  cases l with
  | nil => exact absurd rfl hl
  | cons a t =>
    show chunksF (a :: t).length (a :: t) size = _
    simp only [List.length_cons, chunksF, List.isEmpty_cons, if_false,
      Bool.false_eq_true]
    congr 1
    apply chunksF_congr size hs
    · simp only [List.length_drop, List.length_cons]
      have hs1 : 1 ≤ size := Nat.one_le_iff_ne_zero.mpr hs
      omega
    · exact Nat.le_refl _

/-- Concatenating the slices recovers the original list: coverage of the whole
index range, in order, with no gaps and no overlaps. -/
theorem chunks_flatten_bounded (size : Nat) (hs : size ≠ 0) :
    ∀ (n : Nat) (l : List α), l.length ≤ n → (chunks l size).flatten = l := by
  intro n
  induction n with
  | zero =>
    intro l h
    have hl : l = [] := List.length_eq_zero.mp (Nat.le_zero.mp h)
    subst hl; simp [chunks_nil]
  | succ n ih =>
    intro l h
    by_cases hl : l = []
    · subst hl; simp [chunks_nil]
    · rw [chunks_cons l size hl hs, List.flatten_cons,
        ih (l.drop size) ?_, List.take_append_drop]
      have hpos : 0 < l.length := List.length_pos.mpr hl
      have hs1 : 1 ≤ size := Nat.one_le_iff_ne_zero.mpr hs
      rw [List.length_drop]; omega

/-- Concatenating the slices recovers the original list: coverage of the whole
index range, in order, with no gaps and no overlaps. -/
theorem chunks_flatten (size : Nat) (hs : size ≠ 0) (l : List α) :
    (chunks l size).flatten = l :=
  chunks_flatten_bounded size hs l.length l (Nat.le_refl _)

theorem mem_chunks_bounded (size : Nat) (hs : size ≠ 0) :
    ∀ (n : Nat) (l : List α) (c : List α), l.length ≤ n → c ∈ chunks l size →
      c.length ≤ size ∧ c ≠ [] := by
  intro n
  induction n with
  | zero =>
    intro l c h hc
    have hl : l = [] := List.length_eq_zero.mp (Nat.le_zero.mp h)
    subst hl; rw [chunks_nil] at hc; exact absurd hc (List.not_mem_nil c)
  | succ n ih =>
    intro l c h hc
    by_cases hl : l = []
    · subst hl; rw [chunks_nil] at hc; exact absurd hc (List.not_mem_nil c)
    · rw [chunks_cons l size hl hs] at hc
      rcases List.mem_cons.mp hc with h' | h'
      · subst h'
        constructor
        · rw [List.length_take]; exact Nat.min_le_left _ _
        · have hpos : 0 < (l.take size).length := by
            rw [List.length_take]
            exact lt_min (Nat.pos_of_ne_zero hs) (List.length_pos.mpr hl)
          exact List.ne_nil_of_length_pos hpos
      · refine ih (l.drop size) c ?_ h'
        have hpos : 0 < l.length := List.length_pos.mpr hl
        have hs1 : 1 ≤ size := Nat.one_le_iff_ne_zero.mpr hs
        rw [List.length_drop]; omega

/-- Every slice has length at most `size`. -/
theorem length_le_of_mem_chunks (size : Nat) (hs : size ≠ 0) (l : List α)
    (c : List α) (hc : c ∈ chunks l size) : c.length ≤ size :=
  (mem_chunks_bounded size hs l.length l c (Nat.le_refl _) hc).1

/-- No slice is empty. -/
theorem ne_nil_of_mem_chunks (size : Nat) (hs : size ≠ 0) (l : List α)
    (c : List α) (hc : c ∈ chunks l size) : c ≠ [] :=
  (mem_chunks_bounded size hs l.length l c (Nat.le_refl _) hc).2

/-- The Batcher of the spec, as realised by the source at
`lorelabs-cli-v2.ts:166-169` / `part_000:130-133`: the index universe
`[0, totalCount)` is cut into outer chunks of `outerSize` indices
(`chunks(Array.from(Array(keys.length).keys()), 1000)`), and each outer chunk
is cut into inner batches of `innerSize` indices (the
`for (offset += innerSize) { slice(offset, offset + innerSize) }` loop). -/
def partition (totalCount outerSize innerSize : Nat) : List (List (List Nat)) :=
  (chunks (List.range totalCount) outerSize).map (fun c => chunks c innerSize)

/-!
## Data model

`ItemRecord` embeds one entry of `cacheContent.items`.  In the source,
`onChain` may be absent; every read goes through `... .onChain || false`, so a
plain `Bool` defaulting to `false` is faithful.  `verifyRun` may be absent or
a boolean; it is read by an external verification collaborator, so we keep
`Option Bool` to distinguish "absent" from set.  `items` is a JS object whose
keys (`Object.keys`) enumerate in insertion order; it is embedded as the
insertion-ordered association list of `(key, record)` pairs. -/
structure ItemRecord where
  name : String
  link : String
  onChain : Bool
  verifyRun : Option Bool
deriving Repr, DecidableEq

abbrev Items := List (String × ItemRecord)

/-- Embeds `Object.keys(cacheContent.items)` (`lorelabs-cli-v2.ts:162`, `part_000:126`). -/
def keysOf (items : Items) : List String := items.map Prod.fst

/-- JS property lookup `cacheContent.items[k]`: the record stored under key
`k`, if any (object keys are unique, so first match is the match). -/
def itemGet (items : Items) (k : String) : Option ItemRecord :=
  match items with
  | [] => none
  | p :: rest => if p.1 = k then some p.2 else itemGet rest k

/-- JS property mutation `cacheContent.items[k] = f(...)`: rewrite the entry
stored under key `k` in place, leaving every other entry untouched. -/
def itemSet (items : Items) (k : String) (f : ItemRecord → ItemRecord) : Items :=
  items.map (fun p => if p.1 = k then (p.1, f p.2) else p)

/-- Embeds `cacheContent.items[k].onChain || false` (`lorelabs-cli-v2.ts:171`). -/
def recOnChain (items : Items) (k : String) : Bool :=
  match itemGet items k with
  | some r => r.onChain
  | none => false

/-- Embeds `cacheContent.items[k].link` (`lorelabs-cli-v2.ts:179`). -/
def recLink (items : Items) (k : String) : String :=
  match itemGet items k with
  | some r => r.link
  | none => ""

/-- Embeds `cacheContent.items[k].name` (`lorelabs-cli-v2.ts:180`). -/
def recName (items : Items) (k : String) : String :=
  match itemGet items k with
  | some r => r.name
  | none => ""

/-- Embeds the array access `keys[i]`. -/
def keyAt (keys : List String) (i : Nat) : String := keys.getD i ""

/-!
## The sync engine

`SyncEnv` is the oracle for the two effectful collaborators: `rpcOk c` is the
outcome of the `c`-th `anchorProgram.rpc.addConfigLines` remote call of the
run, `saveOk s` the outcome of the `s`-th `saveCache` attempt. -/
structure SyncEnv where
  rpcOk : Nat → Bool
  saveOk : Nat → Bool

/-- One remote commit request, as built at `lorelabs-cli-v2.ts:175-193` /
`part_000:139-157`: `startKey` is `keys[indexes[0]]` (the first argument
`ind`), `configs` the ordered `(uri, name)` pairs, and `indexes` the batch's
index range (recorded so theorems can speak about which indices a call
covers). -/
structure RemoteCall where
  startKey : String
  configs : List (String × String)
  indexes : List Nat
deriving Repr, DecidableEq

/-- What happened to one inner batch. -/
inductive BatchOutcome
  /-- every index already `onChain`: the remote call is skipped. -/
  | skipped
  /-- remote call succeeded, records marked, `saveCache` succeeded. -/
  | committed
  /-- remote call succeeded and records were marked, but the in-loop
  `saveCache` threw; caught by the same per-batch `catch`. -/
  | saveFailed
  /-- the remote call threw; nothing was marked. -/
  | rpcFailed
deriving Repr, DecidableEq

def BatchOutcome.isFailure : BatchOutcome → Bool
  | .skipped => false
  | .committed => false
  | .saveFailed => true
  | .rpcFailed => true

/-- The mutable state threaded through a sync run: the in-memory
`cacheContent.items`, the `addConfigSuccessful` flag, the log of remote calls
made so far, the number of `saveCache` attempts so far, and the per-batch
outcomes (ghost observation used only by theorems). -/
structure SyncState where
  items : Items
  success : Bool
  calls : List RemoteCall
  saveCount : Nat
  outcomes : List BatchOutcome
deriving Repr, DecidableEq

/-- Embeds `lorelabs-cli-v2.ts:195-198`: mark a record committed and clear its
re-verification flag. -/
def markV2 (r : ItemRecord) : ItemRecord :=
  { r with onChain := true, verifyRun := some false }

/-- Embeds `part_000:159-161`: mark a record committed (`verifyRun` untouched). -/
def markV1 (r : ItemRecord) : ItemRecord :=
  { r with onChain := true }

/-- Embeds the marking loop `indexes.forEach(...)` applying `mark` to the
record under each batch key. -/
def markBatch (mark : ItemRecord → ItemRecord) (keys : List String)
    (indexes : List Nat) (items : Items) : Items :=
  indexes.foldl (fun acc i => itemSet acc (keyAt keys i) mark) items

/-- One iteration of the inner batch loop (`lorelabs-cli-v2.ts:168-205` /
`part_000:132-168`) on the batch `indexes`:
filter the already-on-chain indices; if any index is pending, build the
request and invoke the remote call; on success mark every index of the batch
and attempt `saveCache` (a save exception is caught by the same per-batch
`catch`, which clears `addConfigSuccessful`); on remote failure mark nothing
and clear `addConfigSuccessful`; in either case continue with the next
batch. -/
def stepBatch (mark : ItemRecord → ItemRecord) (env : SyncEnv)
    (keys : List String) (st : SyncState) (indexes : List Nat) : SyncState :=
  let onChain := indexes.filter (fun i => recOnChain st.items (keyAt keys i))
  if onChain.length ≠ indexes.length then
    let ind := keyAt keys (indexes.getD 0 0)
    let configs := indexes.map (fun i =>
      (recLink st.items (keyAt keys i), recName st.items (keyAt keys i)))
    let call : RemoteCall := ⟨ind, configs, indexes⟩
    if env.rpcOk st.calls.length then
      let items' := markBatch mark keys indexes st.items
      if env.saveOk st.saveCount then
        { items := items', success := st.success, calls := st.calls ++ [call],
          saveCount := st.saveCount + 1, outcomes := st.outcomes ++ [.committed] }
      else
        { items := items', success := false, calls := st.calls ++ [call],
          saveCount := st.saveCount + 1, outcomes := st.outcomes ++ [.saveFailed] }
    else
      { items := st.items, success := false, calls := st.calls ++ [call],
        saveCount := st.saveCount, outcomes := st.outcomes ++ [.rpcFailed] }
  else
    { st with outcomes := st.outcomes ++ [.skipped] }

/-- The body of one outer-chunk task: the
`for (offset = 0; offset < allIndexesInSlice.length; offset += 10)` loop,
whose iterations visit exactly the consecutive 10-slices of the chunk, in
order. -/
def runChunk (mark : ItemRecord → ItemRecord) (env : SyncEnv)
    (keys : List String) (st : SyncState) (chunk : List Nat) : SyncState :=
  (chunks chunk 10).foldl (stepBatch mark env keys) st

def initState (items : Items) : SyncState :=
  { items := items, success := true, calls := [], saveCount := 0, outcomes := [] }

/-- The whole batching loop of `addConfigLines` (both versions), on the given
in-memory `items`: outer chunks of 1000 indices over
`Array.from(Array(keys.length).keys())`, each processed batch by batch. -/
def syncItems (mark : ItemRecord → ItemRecord) (env : SyncEnv)
    (items : Items) : SyncState :=
  let keys := keysOf items
  (chunks (List.range keys.length) 1000).foldl (runChunk mark env keys)
    (initState items)

/-- The collection cache (`loadCache`/`saveCache` snapshot): `program` is the
remote-collection handle (`program.candyMachine` in v2 / `program.config` in
v1, with `uuid` elided), `authority` the owner identity, `items` the item
records (`none` when the cache has no `items` field at all). -/
structure Cache where
  program : Option String
  authority : Option String
  items : Option Items
deriving Repr, DecidableEq

/-- How an `addConfigLines` invocation terminates, seen from the caller. -/
inductive RunOutcome
  /-- reached line 212: logged `Done. Successful = success`. -/
  | report (success : Bool)
  /-- threw before any batching: `cacheContent.program` absent (TypeError) or
  its handle falsy (`"missing program config"`). -/
  | missingProgramConfig
  /-- threw before any batching: `cacheContent.items` absent, so
  `Object.keys(cacheContent.items)` raised a TypeError. -/
  | itemsUndefined
  /-- the `finally` block's `saveCache` threw; the exception propagates to the
  caller and nothing is logged. -/
  | finalSaveFailed
deriving Repr, DecidableEq

structure RunResult where
  state : SyncState
  outcome : RunOutcome
deriving Repr, DecidableEq

/-- Embeds `addConfigLines` of `lorelabs-cli-v2.ts:155-213`, given the loaded cache:
guard on the program handle, run the batching loop with the v2 marking (which
also clears `verifyRun`), then the `finally` re-save, whose failure propagates
as an exception while an in-loop save failure does not. -/
def addConfigLines (env : SyncEnv) (cache : Cache) : RunResult :=
  match cache.program with
  | none => ⟨initState [], .missingProgramConfig⟩
  | some _ =>
    match cache.items with
    | none => ⟨initState [], .itemsUndefined⟩
    | some items =>
      let st := syncItems markV2 env items
      if env.saveOk st.saveCount then
        ⟨{ st with saveCount := st.saveCount + 1 }, .report st.success⟩
      else
        ⟨{ st with saveCount := st.saveCount + 1 }, .finalSaveFailed⟩

/-- Embeds `addConfigLines` of `part_000:119-176`: identical control flow, but the
per-record marking sets only `onChain` (v1 does not touch `verifyRun`). -/
def addConfigLinesV1 (env : SyncEnv) (cache : Cache) : RunResult :=
  match cache.program with
  | none => ⟨initState [], .missingProgramConfig⟩
  | some _ =>
    match cache.items with
    | none => ⟨initState [], .itemsUndefined⟩
    | some items =>
      let st := syncItems markV1 env items
      if env.saveOk st.saveCount then
        ⟨{ st with saveCount := st.saveCount + 1 }, .report st.success⟩
      else
        ⟨{ st with saveCount := st.saveCount + 1 }, .finalSaveFailed⟩

/-!
## Generic fold invariants -/

theorem foldl_inv {σ β : Type _} (P : σ → Prop) (f : σ → β → σ) :
    ∀ (l : List β) (s : σ), (∀ s' b, b ∈ l → P s' → P (f s' b)) → P s →
      P (l.foldl f s) := by
  intro l
  induction l with
  | nil => intro s _ hs; exact hs
  | cons b t ih =>
    intro s hstep hs
    exact ih _ (fun s' b' hb' => hstep s' b' (List.mem_cons_of_mem _ hb'))
      (hstep s b (List.mem_cons_self _ _) hs)

theorem foldl_rel {σ τ β : Type _} (R : σ → τ → Prop) (f : σ → β → σ)
    (g : τ → β → τ) :
    ∀ (l : List β) (s : σ) (t : τ),
      (∀ s' t' b, b ∈ l → R s' t' → R (f s' b) (g t' b)) → R s t →
      R (l.foldl f s) (l.foldl g t) := by
  intro l
  induction l with
  | nil => intro s t _ hst; exact hst
  | cons b bs ih =>
    intro s t hstep hst
    exact ih _ _ (fun s' t' b' hb' => hstep s' t' b' (List.mem_cons_of_mem _ hb'))
      (hstep s t b (List.mem_cons_self _ _) hst)

/-!
## Pointwise facts about the item store -/

theorem keysOf_itemSet (items : Items) (k : String) (f : ItemRecord → ItemRecord) :
    keysOf (itemSet items k f) = keysOf items := by
  unfold keysOf itemSet
  rw [List.map_map]
  apply List.map_congr_left
  intro p _
  by_cases h : p.1 = k <;> simp [h]

theorem itemSet_cons (p : String × ItemRecord) (rest : Items) (k' : String)
    (f : ItemRecord → ItemRecord) :
    itemSet (p :: rest) k' f =
      (if p.1 = k' then (p.1, f p.2) else p) :: itemSet rest k' f := rfl

theorem itemGet_itemSet (items : Items) (k' : String) (f : ItemRecord → ItemRecord)
    (k : String) :
    itemGet (itemSet items k' f) k =
      if k = k' then (itemGet items k).map f else itemGet items k := by
  induction items with
  | nil => by_cases h : k = k' <;> simp [itemSet, itemGet, h]
  | cons p rest ih =>
    rw [itemSet_cons]
    by_cases hp : p.1 = k' <;> by_cases hk : p.1 = k
    · have hkk : k = k' := by rw [← hk, hp]
      rw [if_pos hp, if_pos hkk]
      show (if p.1 = k then some (f p.2) else itemGet (itemSet rest k' f) k) = _
      rw [if_pos hk]
      show _ = Option.map f (if p.1 = k then some p.2 else itemGet rest k)
      rw [if_pos hk]
      rfl
    · have hkk : ¬ k = k' := by intro h; exact hk (by rw [hp, ← h])
      rw [if_pos hp, if_neg hkk]
      show (if p.1 = k then some (f p.2) else itemGet (itemSet rest k' f) k) = _
      rw [if_neg hk, ih, if_neg hkk]
      show _ = (if p.1 = k then some p.2 else itemGet rest k)
      rw [if_neg hk]
    · have hkk : ¬ k = k' := by intro h; exact hp (by rw [hk, h])
      rw [if_neg hp, if_neg hkk]
      show (if p.1 = k then some p.2 else itemGet (itemSet rest k' f) k) = _
      rw [if_pos hk]
      show _ = (if p.1 = k then some p.2 else itemGet rest k)
      rw [if_pos hk]
    · by_cases hkk : k = k'
      · rw [if_neg hp, if_pos hkk]
        show (if p.1 = k then some p.2 else itemGet (itemSet rest k' f) k) = _
        rw [if_neg hk, ih, if_pos hkk]
        show _ = Option.map f (if p.1 = k then some p.2 else itemGet rest k)
        rw [if_neg hk]
      · rw [if_neg hp, if_neg hkk]
        show (if p.1 = k then some p.2 else itemGet (itemSet rest k' f) k) = _
        rw [if_neg hk, ih, if_neg hkk]
        show _ = (if p.1 = k then some p.2 else itemGet rest k)
        rw [if_neg hk]

theorem itemGet_isSome (items : Items) (k : String) :
    (∃ r, itemGet items k = some r) ↔ k ∈ keysOf items := by
  induction items with
  | nil => simp [itemGet, keysOf]
  | cons p rest ih =>
    by_cases h : p.1 = k
    · simp [itemGet, keysOf, h]
    · have h' : ¬ k = p.1 := fun hk => h hk.symm
      simp [itemGet, keysOf, h, h', ih]

/-- Uniform view of a boolean field of the record stored under a key, used to
state stability / establishment / frame facts once for `onChain` and once for
`verifyRun`. -/
def recProp (Q : ItemRecord → Bool) (items : Items) (k : String) : Bool :=
  match itemGet items k with
  | some r => Q r
  | none => false

theorem recOnChain_eq_recProp (items : Items) (k : String) :
    recOnChain items k = recProp (fun r => r.onChain) items k := rfl

theorem recProp_itemSet_stable (Q : ItemRecord → Bool)
    (f : ItemRecord → ItemRecord) (hf : ∀ r, Q r = true → Q (f r) = true)
    (items : Items) (k' k : String) (h : recProp Q items k = true) :
    recProp Q (itemSet items k' f) k = true := by
  unfold recProp at *
  rw [itemGet_itemSet]
  by_cases hk : k = k'
  · rw [if_pos hk]
    cases hg : itemGet items k with
    | none => rw [hg] at h; exact absurd h (by simp)
    | some r => rw [hg] at h; simpa using hf r h
  · rw [if_neg hk]; exact h

theorem recProp_itemSet_establish (Q : ItemRecord → Bool)
    (f : ItemRecord → ItemRecord) (hf : ∀ r, Q (f r) = true)
    (items : Items) (k : String) (hk : k ∈ keysOf items) :
    recProp Q (itemSet items k f) k = true := by
  unfold recProp
  rw [itemGet_itemSet, if_pos rfl]
  obtain ⟨r, hr⟩ := (itemGet_isSome items k).mpr hk
  rw [hr]
  simpa using hf r

theorem recProp_itemSet_frame (Q : ItemRecord → Bool)
    (f : ItemRecord → ItemRecord) (hf : ∀ r, Q (f r) = Q r)
    (items : Items) (k' k : String) :
    recProp Q (itemSet items k' f) k = recProp Q items k := by
  unfold recProp
  rw [itemGet_itemSet]
  by_cases hk : k = k'
  · rw [if_pos hk]
    cases itemGet items k with
    | none => rfl
    | some r => simpa using hf r
  · rw [if_neg hk]

theorem keysOf_markBatch (mark : ItemRecord → ItemRecord) (keys : List String) :
    ∀ (indexes : List Nat) (items : Items),
      keysOf (markBatch mark keys indexes items) = keysOf items := by
  intro indexes
  induction indexes with
  | nil => intro items; rfl
  | cons i rest ih =>
    intro items
    show keysOf (markBatch mark keys rest (itemSet items (keyAt keys i) mark)) = _
    rw [ih, keysOf_itemSet]

theorem recProp_markBatch_stable (Q : ItemRecord → Bool)
    (mark : ItemRecord → ItemRecord) (hf : ∀ r, Q r = true → Q (mark r) = true)
    (keys : List String) :
    ∀ (indexes : List Nat) (items : Items) (k : String),
      recProp Q items k = true →
      recProp Q (markBatch mark keys indexes items) k = true := by
  intro indexes
  induction indexes with
  | nil => intro items k h; exact h
  | cons i rest ih =>
    intro items k h
    exact ih _ _ (recProp_itemSet_stable Q mark hf items _ k h)

theorem recProp_markBatch_establish (Q : ItemRecord → Bool)
    (mark : ItemRecord → ItemRecord) (hf : ∀ r, Q (mark r) = true)
    (keys : List String) :
    ∀ (indexes : List Nat) (items : Items) (k : String),
      k ∈ indexes.map (keyAt keys) → k ∈ keysOf items →
      recProp Q (markBatch mark keys indexes items) k = true := by
  intro indexes
  induction indexes with
  | nil => intro items k h _; exact absurd h (by simp)
  | cons i rest ih =>
    intro items k hmem hkeys
    rcases List.mem_cons.mp hmem with h | h
    · have hset : recProp Q (itemSet items (keyAt keys i) mark) k = true := by
        subst h
        exact recProp_itemSet_establish Q mark hf items _ hkeys
      exact recProp_markBatch_stable Q mark (fun r _ => hf r) keys rest _ k hset
    · exact ih (itemSet items (keyAt keys i) mark) k h
        ((keysOf_itemSet items _ mark).symm ▸ hkeys)

theorem recProp_markBatch_frame (Q : ItemRecord → Bool)
    (mark : ItemRecord → ItemRecord) (hf : ∀ r, Q (mark r) = Q r)
    (keys : List String) :
    ∀ (indexes : List Nat) (items : Items) (k : String),
      recProp Q (markBatch mark keys indexes items) k = recProp Q items k := by
  intro indexes
  induction indexes with
  | nil => intro items k; rfl
  | cons i rest ih =>
    intro items k
    show recProp Q (markBatch mark keys rest (itemSet items (keyAt keys i) mark)) k = _
    rw [ih, recProp_itemSet_frame Q mark hf]


/-!
## Case analysis of one batch step -/

theorem keyAt_mem (keys : List String) (i : Nat) (h : i < keys.length) :
    keyAt keys i ∈ keys := by
  unfold keyAt
  rw [List.getD_eq_getElem?_getD, List.getElem?_eq_getElem h]
  exact List.getElem_mem h

/-- Translation of the guard `onChain.length != indexes.length`
(`lorelabs-cli-v2.ts:174`). -/
theorem batch_guard (items : Items) (keys : List String) (indexes : List Nat) :
    ((indexes.filter (fun i => recOnChain items (keyAt keys i))).length
        = indexes.length)
      ↔ ∀ i ∈ indexes, recOnChain items (keyAt keys i) = true :=
  List.filter_length_eq_length

/-- Shorthand for the remote request a pending batch gives rise to. -/
def batchCall (items : Items) (keys : List String) (indexes : List Nat) :
    RemoteCall :=
  ⟨keyAt keys (indexes.getD 0 0),
   indexes.map (fun i => (recLink items (keyAt keys i), recName items (keyAt keys i))),
   indexes⟩

theorem stepBatch_skip (mark : ItemRecord → ItemRecord) (env : SyncEnv)
    (keys : List String) (st : SyncState) (indexes : List Nat)
    (h : ∀ i ∈ indexes, recOnChain st.items (keyAt keys i) = true) :
    stepBatch mark env keys st indexes =
      { st with outcomes := st.outcomes ++ [BatchOutcome.skipped] } := by
  unfold stepBatch
  rw [if_neg]
  intro hne
  exact hne ((batch_guard st.items keys indexes).mpr h)

theorem stepBatch_rpcFail (mark : ItemRecord → ItemRecord) (env : SyncEnv)
    (keys : List String) (st : SyncState) (indexes : List Nat)
    (h : ¬ ∀ i ∈ indexes, recOnChain st.items (keyAt keys i) = true)
    (hr : env.rpcOk st.calls.length = false) :
    stepBatch mark env keys st indexes =
      { st with
        success := false
        calls := st.calls ++ [batchCall st.items keys indexes]
        outcomes := st.outcomes ++ [BatchOutcome.rpcFailed] } := by
  unfold stepBatch batchCall
  rw [if_pos (fun he => h ((batch_guard st.items keys indexes).mp he))]
  rw [if_neg (by rw [hr]; exact Bool.false_ne_true)]

theorem stepBatch_commit (mark : ItemRecord → ItemRecord) (env : SyncEnv)
    (keys : List String) (st : SyncState) (indexes : List Nat)
    (h : ¬ ∀ i ∈ indexes, recOnChain st.items (keyAt keys i) = true)
    (hr : env.rpcOk st.calls.length = true)
    (hs : env.saveOk st.saveCount = true) :
    stepBatch mark env keys st indexes =
      { items := markBatch mark keys indexes st.items
        success := st.success
        calls := st.calls ++ [batchCall st.items keys indexes]
        saveCount := st.saveCount + 1
        outcomes := st.outcomes ++ [BatchOutcome.committed] } := by
  unfold stepBatch batchCall
  rw [if_pos (fun he => h ((batch_guard st.items keys indexes).mp he))]
  rw [if_pos hr, if_pos hs]

theorem stepBatch_saveFail (mark : ItemRecord → ItemRecord) (env : SyncEnv)
    (keys : List String) (st : SyncState) (indexes : List Nat)
    (h : ¬ ∀ i ∈ indexes, recOnChain st.items (keyAt keys i) = true)
    (hr : env.rpcOk st.calls.length = true)
    (hs : env.saveOk st.saveCount = false) :
    stepBatch mark env keys st indexes =
      { items := markBatch mark keys indexes st.items
        success := false
        calls := st.calls ++ [batchCall st.items keys indexes]
        saveCount := st.saveCount + 1
        outcomes := st.outcomes ++ [BatchOutcome.saveFailed] } := by
  unfold stepBatch batchCall
  rw [if_pos (fun he => h ((batch_guard st.items keys indexes).mp he))]
  rw [if_pos hr, if_neg (by rw [hs]; exact Bool.false_ne_true)]

/-- Total case analysis on one batch step. -/
theorem stepBatch_elim (mark : ItemRecord → ItemRecord) (env : SyncEnv)
    (keys : List String) (st : SyncState) (indexes : List Nat)
    (motive : SyncState → Prop)
    (hskip : (∀ i ∈ indexes, recOnChain st.items (keyAt keys i) = true) →
      motive { st with outcomes := st.outcomes ++ [BatchOutcome.skipped] })
    (hfail : (¬ ∀ i ∈ indexes, recOnChain st.items (keyAt keys i) = true) →
      env.rpcOk st.calls.length = false →
      motive
        { st with
          success := false
          calls := st.calls ++ [batchCall st.items keys indexes]
          outcomes := st.outcomes ++ [BatchOutcome.rpcFailed] })
    (hcommit : (¬ ∀ i ∈ indexes, recOnChain st.items (keyAt keys i) = true) →
      env.rpcOk st.calls.length = true → env.saveOk st.saveCount = true →
      motive
        { items := markBatch mark keys indexes st.items
          success := st.success
          calls := st.calls ++ [batchCall st.items keys indexes]
          saveCount := st.saveCount + 1
          outcomes := st.outcomes ++ [BatchOutcome.committed] })
    (hsave : (¬ ∀ i ∈ indexes, recOnChain st.items (keyAt keys i) = true) →
      env.rpcOk st.calls.length = true → env.saveOk st.saveCount = false →
      motive
        { items := markBatch mark keys indexes st.items
          success := false
          calls := st.calls ++ [batchCall st.items keys indexes]
          saveCount := st.saveCount + 1
          outcomes := st.outcomes ++ [BatchOutcome.saveFailed] }) :
    motive (stepBatch mark env keys st indexes) := by
  by_cases hp : ∀ i ∈ indexes, recOnChain st.items (keyAt keys i) = true
  · rw [stepBatch_skip mark env keys st indexes hp]; exact hskip hp
  · cases hr : env.rpcOk st.calls.length with
    | false => rw [stepBatch_rpcFail mark env keys st indexes hp hr]; exact hfail hp hr
    | true =>
      cases hs : env.saveOk st.saveCount with
      | true =>
        rw [stepBatch_commit mark env keys st indexes hp hr hs]
        exact hcommit hp hr hs
      | false =>
        rw [stepBatch_saveFail mark env keys st indexes hp hr hs]
        exact hsave hp hr hs

/-!
## Run-level structure: the loop as a single fold over inner batches -/

/-- Sequential processing of a list of inner batches. -/
def syncBatches (mark : ItemRecord → ItemRecord) (env : SyncEnv)
    (keys : List String) (st : SyncState) (batches : List (List Nat)) : SyncState :=
  batches.foldl (stepBatch mark env keys) st

/-- All inner batches of a run over `n` records, in processing order. -/
def innerBatches (n : Nat) : List (List Nat) :=
  ((chunks (List.range n) 1000).map (fun c => chunks c 10)).flatten

theorem syncItems_eq (mark : ItemRecord → ItemRecord) (env : SyncEnv)
    (items : Items) :
    syncItems mark env items =
      syncBatches mark env (keysOf items) (initState items)
        (innerBatches items.length) := by
  unfold syncItems syncBatches innerBatches runChunk
  show (chunks (List.range (keysOf items).length) 1000).foldl
      (fun st chunk => (chunks chunk 10).foldl (stepBatch mark env (keysOf items)) st)
      (initState items) = _
  have hlen : (keysOf items).length = items.length := by
    unfold keysOf; rw [List.length_map]
  rw [List.foldl_flatten, List.foldl_map, hlen]

theorem innerBatches_flatten (n : Nat) :
    (innerBatches n).flatten = List.range n := by
  unfold innerBatches
  rw [List.flatten_flatten, List.map_map]
  have h : ((chunks (List.range n) 1000).map
      (List.flatten ∘ fun c => chunks c 10)) =
      (chunks (List.range n) 1000).map id := by
    apply List.map_congr_left
    intro c _
    exact chunks_flatten 10 (by decide) c
  rw [h, List.map_id]
  exact chunks_flatten 1000 (by decide) _

theorem mem_innerBatches (n : Nat) (b : List Nat) (hb : b ∈ innerBatches n) :
    b ≠ [] ∧ b.length ≤ 10 ∧ ∀ i ∈ b, i < n := by
  unfold innerBatches at hb
  obtain ⟨bc, hbc, hb'⟩ := List.mem_flatten.mp hb
  obtain ⟨c, hc, rfl⟩ := List.mem_map.mp hbc
  refine ⟨ne_nil_of_mem_chunks 10 (by decide) c b hb',
    length_le_of_mem_chunks 10 (by decide) c b hb', ?_⟩
  intro i hi
  have hmem : i ∈ (innerBatches n).flatten :=
    List.mem_flatten.mpr ⟨b, hb, hi⟩
  rw [innerBatches_flatten] at hmem
  exact List.mem_range.mp hmem

/-!
## Run invariants -/

theorem keysOf_stepBatch (mark : ItemRecord → ItemRecord) (env : SyncEnv)
    (keys : List String) (st : SyncState) (indexes : List Nat) :
    keysOf (stepBatch mark env keys st indexes).items = keysOf st.items := by
  apply stepBatch_elim mark env keys st indexes
    (fun st' => keysOf st'.items = keysOf st.items)
  · intro _; rfl
  · intro _ _; rfl
  · intro _ _ _; exact keysOf_markBatch mark keys indexes st.items
  · intro _ _ _; exact keysOf_markBatch mark keys indexes st.items

theorem keysOf_syncBatches (mark : ItemRecord → ItemRecord) (env : SyncEnv)
    (keys : List String) (st : SyncState) (batches : List (List Nat)) :
    keysOf (syncBatches mark env keys st batches).items = keysOf st.items := by
  unfold syncBatches
  exact foldl_inv (fun st' => keysOf st'.items = keysOf st.items)
    (stepBatch mark env keys) batches st
    (fun s' b _ hs' => by
      show keysOf (stepBatch mark env keys s' b).items = keysOf st.items
      rw [keysOf_stepBatch]
      exact hs') rfl

theorem outcomes_stepBatch (mark : ItemRecord → ItemRecord) (env : SyncEnv)
    (keys : List String) (st : SyncState) (indexes : List Nat) :
    ∃ o, (stepBatch mark env keys st indexes).outcomes = st.outcomes ++ [o] := by
  apply stepBatch_elim mark env keys st indexes
    (fun st' => ∃ o, st'.outcomes = st.outcomes ++ [o])
  · intro _; exact ⟨_, rfl⟩
  · intro _ _; exact ⟨_, rfl⟩
  · intro _ _ _; exact ⟨_, rfl⟩
  · intro _ _ _; exact ⟨_, rfl⟩

/-- Every inner batch is processed: failures never shorten the loop. -/
theorem outcomes_syncBatches_length (mark : ItemRecord → ItemRecord)
    (env : SyncEnv) (keys : List String) :
    ∀ (batches : List (List Nat)) (st : SyncState),
      (syncBatches mark env keys st batches).outcomes.length =
        st.outcomes.length + batches.length := by
  intro batches
  induction batches with
  | nil => intro st; rfl
  | cons b rest ih =>
    intro st
    show (syncBatches mark env keys (stepBatch mark env keys st b) rest).outcomes.length = _
    rw [ih]
    obtain ⟨o, ho⟩ := outcomes_stepBatch mark env keys st b
    rw [ho]
    simp only [List.length_append, List.length_cons, List.length_nil]
    omega

/-- Number of failed inner batches (remote-call failures and in-loop save
failures) observed in a state. -/
def failedBatches (st : SyncState) : Nat :=
  st.outcomes.countP (fun o => o.isFailure)

/-- The `addConfigSuccessful` flag is exactly "no batch attempt failed so
far". -/
theorem success_syncBatches (mark : ItemRecord → ItemRecord) (env : SyncEnv)
    (keys : List String) (st : SyncState) (batches : List (List Nat))
    (h : st.success = !(st.outcomes.any (fun o => o.isFailure))) :
    (syncBatches mark env keys st batches).success =
      !((syncBatches mark env keys st batches).outcomes.any
          (fun o => o.isFailure)) := by
  unfold syncBatches
  refine foldl_inv (fun st' => st'.success = !(st'.outcomes.any (fun o => o.isFailure)))
    (stepBatch mark env keys) batches st ?_ h
  intro s' b _ hs'
  apply stepBatch_elim mark env keys s' b
    (fun st' => st'.success = !(st'.outcomes.any (fun o => o.isFailure)))
  · intro _; simpa [BatchOutcome.isFailure] using hs'
  · intro _ _; simp [BatchOutcome.isFailure]
  · intro _ _ _; simpa [BatchOutcome.isFailure] using hs'
  · intro _ _ _; simp [BatchOutcome.isFailure]

/-- Stability of a record property established by `mark` (or already present)
through a whole run. -/
theorem recProp_syncBatches_stable (Q : ItemRecord → Bool)
    (mark : ItemRecord → ItemRecord) (hQ : ∀ r, Q r = true → Q (mark r) = true)
    (env : SyncEnv) (keys : List String) (st : SyncState)
    (batches : List (List Nat)) (k : String)
    (h : recProp Q st.items k = true) :
    recProp Q (syncBatches mark env keys st batches).items k = true := by
  unfold syncBatches
  refine foldl_inv (fun st' => recProp Q st'.items k = true)
    (stepBatch mark env keys) batches st ?_ h
  intro s' b _ hs'
  apply stepBatch_elim mark env keys s' b
    (fun st' => recProp Q st'.items k = true)
  · intro _; exact hs'
  · intro _ _; exact hs'
  · intro _ _ _; exact recProp_markBatch_stable Q mark hQ keys b s'.items k hs'
  · intro _ _ _; exact recProp_markBatch_stable Q mark hQ keys b s'.items k hs'

/-- After processing, every index of every processed batch is marked on-chain,
provided every remote call of the run succeeds (in-loop save failures are
irrelevant: marking happens before saving). -/
theorem syncBatches_marks (mark : ItemRecord → ItemRecord)
    (hon : ∀ r, (mark r).onChain = true) (env : SyncEnv)
    (hrpc : ∀ c, env.rpcOk c = true) (keys : List String) :
    ∀ (batches : List (List Nat)) (st : SyncState),
      keysOf st.items = keys →
      ∀ i, i ∈ batches.flatten → i < keys.length →
        recOnChain (syncBatches mark env keys st batches).items (keyAt keys i)
          = true := by
  intro batches
  induction batches with
  | nil => intro st _ i hi _; simp at hi
  | cons b rest ih =>
    intro st hkeys i hi hlt
    show recOnChain
      (syncBatches mark env keys (stepBatch mark env keys st b) rest).items _ = true
    rw [List.flatten_cons, List.mem_append] at hi
    have hkeys' : keysOf (stepBatch mark env keys st b).items = keys := by
      rw [keysOf_stepBatch]; exact hkeys
    rcases hi with hib | hirest
    · have hstep : recOnChain (stepBatch mark env keys st b).items (keyAt keys i)
          = true := by
        by_cases hp : ∀ j ∈ b, recOnChain st.items (keyAt keys j) = true
        · rw [stepBatch_skip mark env keys st b hp]
          exact hp i hib
        · have hkmem : keyAt keys i ∈ keysOf st.items := by
            rw [hkeys]; exact keyAt_mem keys i hlt
          have hbmem : keyAt keys i ∈ b.map (keyAt keys) :=
            List.mem_map_of_mem _ hib
          cases hs : env.saveOk st.saveCount with
          | true =>
            rw [stepBatch_commit mark env keys st b hp (hrpc _) hs,
              recOnChain_eq_recProp]
            exact recProp_markBatch_establish _ mark hon keys b st.items _ hbmem hkmem
          | false =>
            rw [stepBatch_saveFail mark env keys st b hp (hrpc _) hs,
              recOnChain_eq_recProp]
            exact recProp_markBatch_establish _ mark hon keys b st.items _ hbmem hkmem
      rw [recOnChain_eq_recProp]
      refine recProp_syncBatches_stable _ mark (fun r _ => hon r) env keys _ rest _ ?_
      rw [← recOnChain_eq_recProp]
      exact hstep
    · exact ih _ hkeys' i hirest hlt

/-- If every index of every batch is already on-chain, the whole run only
appends `skipped` outcomes: no remote call, no save, no state change. -/
theorem syncBatches_all_skip (mark : ItemRecord → ItemRecord) (env : SyncEnv)
    (keys : List String) :
    ∀ (batches : List (List Nat)) (st : SyncState),
      (∀ i ∈ batches.flatten, recOnChain st.items (keyAt keys i) = true) →
      syncBatches mark env keys st batches =
        { st with outcomes :=
            st.outcomes ++ batches.map (fun _ => BatchOutcome.skipped) } := by
  intro batches
  induction batches with
  | nil =>
    intro st _
    show st = _
    simp
  | cons b rest ih =>
    intro st h
    have hb : ∀ i ∈ b, recOnChain st.items (keyAt keys i) = true := fun i hi =>
      h i (by rw [List.flatten_cons]; exact List.mem_append_left _ hi)
    show syncBatches mark env keys (stepBatch mark env keys st b) rest = _
    rw [stepBatch_skip mark env keys st b hb]
    rw [ih { st with outcomes := st.outcomes ++ [BatchOutcome.skipped] }
      (fun i hi =>
        h i (by rw [List.flatten_cons]; exact List.mem_append_right _ hi))]
    simp [List.append_assoc]

/-!
## Projection views (for the `verifyRun` lifecycle) -/

/-- View of an arbitrary field of the record stored under a key. -/
def recProj {γ : Type} (proj : ItemRecord → γ) (items : Items) (k : String) :
    Option γ :=
  (itemGet items k).map proj

theorem recProj_itemSet_frame {γ : Type} (proj : ItemRecord → γ)
    (f : ItemRecord → ItemRecord) (hf : ∀ r, proj (f r) = proj r)
    (items : Items) (k' k : String) :
    recProj proj (itemSet items k' f) k = recProj proj items k := by
  unfold recProj
  rw [itemGet_itemSet]
  by_cases hk : k = k'
  · rw [if_pos hk]
    cases itemGet items k with
    | none => rfl
    | some r =>
      show some (proj (f r)) = some (proj r)
      rw [hf]
  · rw [if_neg hk]

theorem recProj_markBatch_frame {γ : Type} (proj : ItemRecord → γ)
    (mark : ItemRecord → ItemRecord) (hf : ∀ r, proj (mark r) = proj r)
    (keys : List String) :
    ∀ (indexes : List Nat) (items : Items) (k : String),
      recProj proj (markBatch mark keys indexes items) k =
        recProj proj items k := by
  intro indexes
  induction indexes with
  | nil => intro items k; rfl
  | cons i rest ih =>
    intro items k
    show recProj proj (markBatch mark keys rest (itemSet items (keyAt keys i) mark)) k = _
    rw [ih, recProj_itemSet_frame proj mark hf]

theorem recProj_syncBatches_frame {γ : Type} (proj : ItemRecord → γ)
    (mark : ItemRecord → ItemRecord) (hf : ∀ r, proj (mark r) = proj r)
    (env : SyncEnv) (keys : List String) (st : SyncState)
    (batches : List (List Nat)) (k : String) :
    recProj proj (syncBatches mark env keys st batches).items k =
      recProj proj st.items k := by
  unfold syncBatches
  refine foldl_inv (fun st' => recProj proj st'.items k = recProj proj st.items k)
    (stepBatch mark env keys) batches st ?_ rfl
  intro s' b _ hs'
  apply stepBatch_elim mark env keys s' b
    (fun st' => recProj proj st'.items k = recProj proj st.items k)
  · intro _; exact hs'
  · intro _ _; exact hs'
  · intro _ _ _
    show recProj proj (markBatch mark keys b s'.items) k = _
    rw [recProj_markBatch_frame proj mark hf]; exact hs'
  · intro _ _ _
    show recProj proj (markBatch mark keys b s'.items) k = _
    rw [recProj_markBatch_frame proj mark hf]; exact hs'

theorem recProj_itemSet_establish {γ : Type} (proj : ItemRecord → γ)
    (f : ItemRecord → ItemRecord) (v : γ) (hv : ∀ r, proj (f r) = v)
    (items : Items) (k : String) (hk : k ∈ keysOf items) :
    recProj proj (itemSet items k f) k = some v := by
  unfold recProj
  rw [itemGet_itemSet, if_pos rfl]
  obtain ⟨r, hr⟩ := (itemGet_isSome items k).mpr hk
  rw [hr]
  show some (proj (f r)) = some v
  rw [hv]

theorem recProj_itemSet_stable {γ : Type} (proj : ItemRecord → γ)
    (f : ItemRecord → ItemRecord) (v : γ) (hv : ∀ r, proj (f r) = v)
    (items : Items) (k' k : String) (h : recProj proj items k = some v) :
    recProj proj (itemSet items k' f) k = some v := by
  unfold recProj at *
  rw [itemGet_itemSet]
  by_cases hk : k = k'
  · rw [if_pos hk]
    cases hg : itemGet items k with
    | none => rw [hg] at h; exact absurd h (by simp)
    | some r =>
      show some (proj (f r)) = some v
      rw [hv]
  · rw [if_neg hk]; exact h

theorem recProj_markBatch_stable {γ : Type} (proj : ItemRecord → γ)
    (mark : ItemRecord → ItemRecord) (v : γ) (hv : ∀ r, proj (mark r) = v)
    (keys : List String) :
    ∀ (indexes : List Nat) (items : Items) (k : String),
      recProj proj items k = some v →
      recProj proj (markBatch mark keys indexes items) k = some v := by
  intro indexes
  induction indexes with
  | nil => intro items k h; exact h
  | cons i rest ih =>
    intro items k h
    exact ih _ _ (recProj_itemSet_stable proj mark v hv items _ k h)

theorem recProj_markBatch_establish {γ : Type} (proj : ItemRecord → γ)
    (mark : ItemRecord → ItemRecord) (v : γ) (hv : ∀ r, proj (mark r) = v)
    (keys : List String) :
    ∀ (indexes : List Nat) (items : Items) (k : String),
      k ∈ indexes.map (keyAt keys) → k ∈ keysOf items →
      recProj proj (markBatch mark keys indexes items) k = some v := by
  intro indexes
  induction indexes with
  | nil => intro items k h _; exact absurd h (by simp)
  | cons i rest ih =>
    intro items k hmem hkeys
    rcases List.mem_cons.mp hmem with h | h
    · have hset : recProj proj (itemSet items (keyAt keys i) mark) k = some v := by
        subst h
        exact recProj_itemSet_establish proj mark v hv items _ hkeys
      exact recProj_markBatch_stable proj mark v hv keys rest _ k hset
    · exact ih (itemSet items (keyAt keys i) mark) k h
        ((keysOf_itemSet items _ mark).symm ▸ hkeys)

/-!
## The collection-creation path -/

/-- How the `create_candy_machine` action can abort. -/
inductive CreateError
  /-- guard at `lorelabs-cli-v2.ts:76-78`: `"a program existed previously..."`. -/
  | programExists
  /-- `Object.keys(cacheContent.items)` at line 81 raises a TypeError when the
  cache has no `items` field at all. -/
  | itemsUndefined
  /-- guard at lines 82-84: `"no items in cacheContent"`. -/
  | noItems
  /-- `createCandyMachineV2` threw; the `catch` logs and rethrows (147-150). -/
  | remoteFailed
deriving Repr, DecidableEq

structure CreateResult where
  cache : Cache
  remoteCreateCalls : Nat
  saves : Nat
  error : Option CreateError
deriving Repr, DecidableEq

/-- Embeds the `create_candy_machine` action of `lorelabs-cli-v2.ts:60-152` up
to the hand-over to `addConfigLines` (modelled separately): load the cache,
refuse if a program handle is already present, refuse if there are no item
records, otherwise invoke the remote `createCandyMachineV2` capability
(outcome given by `createOk`), record the returned handle and the wallet
authority in the cache and persist it.  `cache` in the result is the persisted
cache (`saveCache` runs only after a successful remote call); the counters
record how many remote create calls and saves were performed.  The external
wallet/config loading between the guards and the remote call is effect-free
for the cache and is elided. -/
def create_candy_machine (createOk : Bool) (newHandle authority : String)
    (cache : Cache) : CreateResult :=
  if cache.program.isSome then
    ⟨cache, 0, 0, some CreateError.programExists⟩
  else
    match cache.items with
    | none => ⟨cache, 0, 0, some CreateError.itemsUndefined⟩
    | some items =>
      if items.length = 0 then
        ⟨cache, 0, 0, some CreateError.noItems⟩
      else if createOk then
        ⟨{ cache with program := some newHandle, authority := some authority },
          1, 1, none⟩
      else
        ⟨cache, 1, 0, some CreateError.remoteFailed⟩

/-!
## Observational equivalence of the two engine versions -/

/-- The part of an item entry that batch selection and request building can
observe: key, name, link and onChain — everything except `verifyRun`. -/
def obs (p : String × ItemRecord) : String × String × String × Bool :=
  (p.1, p.2.name, p.2.link, p.2.onChain)

def robs (r : ItemRecord) : String × String × Bool :=
  (r.name, r.link, r.onChain)

def itemsAgree (xs ys : Items) : Prop := xs.map obs = ys.map obs

theorem keysOf_eq_obs (xs : Items) :
    keysOf xs = (xs.map obs).map (fun t => t.1) := by
  unfold keysOf
  rw [List.map_map]
  rfl

theorem itemsAgree_keysOf (xs ys : Items) (h : itemsAgree xs ys) :
    keysOf xs = keysOf ys := by
  rw [keysOf_eq_obs, keysOf_eq_obs, h]

theorem itemsAgree_itemGet (xs : Items) :
    ∀ (ys : Items), itemsAgree xs ys → ∀ (k : String),
      (itemGet xs k).map robs = (itemGet ys k).map robs := by
  induction xs with
  | nil =>
    intro ys h k
    have hy : ys = [] := List.map_eq_nil_iff.mp h.symm
    subst hy; rfl
  | cons p xs' ih =>
    intro ys h k
    cases ys with
    | nil => exact absurd h.symm (by simp [itemsAgree])
    | cons q ys' =>
      unfold itemsAgree at h
      simp only [List.map_cons, List.cons.injEq] at h
      obtain ⟨hpq, htail⟩ := h
      have hk : p.1 = q.1 := congrArg (fun t => t.1) hpq
      have hr : robs p.2 = robs q.2 := congrArg (fun t => t.2) hpq
      by_cases hpk : p.1 = k
      · have hqk : q.1 = k := by rw [← hk]; exact hpk
        show (if p.1 = k then some p.2 else itemGet xs' k).map robs = _
        rw [if_pos hpk]
        show _ = (if q.1 = k then some q.2 else itemGet ys' k).map robs
        rw [if_pos hqk]
        show some (robs p.2) = some (robs q.2)
        rw [hr]
      · have hqk : ¬ q.1 = k := by rw [← hk]; exact hpk
        show (if p.1 = k then some p.2 else itemGet xs' k).map robs = _
        rw [if_neg hpk]
        show _ = (if q.1 = k then some q.2 else itemGet ys' k).map robs
        rw [if_neg hqk]
        exact ih ys' htail k

theorem itemsAgree_rec (xs ys : Items) (h : itemsAgree xs ys) (k : String) :
    recOnChain xs k = recOnChain ys k ∧ recLink xs k = recLink ys k ∧
      recName xs k = recName ys k := by
  have hg := itemsAgree_itemGet xs ys h k
  unfold recOnChain recLink recName
  cases hx : itemGet xs k with
  | none =>
    cases hy : itemGet ys k with
    | none => exact ⟨rfl, rfl, rfl⟩
    | some b => rw [hx, hy] at hg; simp at hg
  | some a =>
    cases hy : itemGet ys k with
    | none => rw [hx, hy] at hg; simp at hg
    | some b =>
      rw [hx, hy] at hg
      have hg' : some (robs a) = some (robs b) := hg
      have hro : robs a = robs b := Option.some.inj hg'
      refine ⟨?_, ?_, ?_⟩
      · show a.onChain = b.onChain
        exact congrArg (fun t : String × String × Bool => t.2.2) hro
      · show a.link = b.link
        exact congrArg (fun t : String × String × Bool => t.2.1) hro
      · show a.name = b.name
        exact congrArg (fun t : String × String × Bool => t.1) hro

/-- The observable effect of marking, on the observation tuples: set `onChain`
to true under the marked key.  Both `markV2` and `markV1` induce it. -/
def obsMark (k : String) (t : String × String × String × Bool) :
    String × String × String × Bool :=
  if t.1 = k then (t.1, t.2.1, t.2.2.1, true) else t

theorem obs_itemSet_markV2 (xs : Items) (k : String) :
    (itemSet xs k markV2).map obs = (xs.map obs).map (obsMark k) := by
  unfold itemSet
  rw [List.map_map, List.map_map]
  apply List.map_congr_left
  intro p _
  by_cases hp : p.1 = k <;> simp [obs, obsMark, markV2, Function.comp, hp]

theorem obs_itemSet_markV1 (xs : Items) (k : String) :
    (itemSet xs k markV1).map obs = (xs.map obs).map (obsMark k) := by
  unfold itemSet
  rw [List.map_map, List.map_map]
  apply List.map_congr_left
  intro p _
  by_cases hp : p.1 = k <;> simp [obs, obsMark, markV1, Function.comp, hp]

theorem itemsAgree_itemSet (xs ys : Items) (k : String) (h : itemsAgree xs ys) :
    itemsAgree (itemSet xs k markV2) (itemSet ys k markV1) := by
  unfold itemsAgree
  rw [obs_itemSet_markV2, obs_itemSet_markV1, h]

theorem itemsAgree_markBatch (keys : List String) :
    ∀ (indexes : List Nat) (xs ys : Items), itemsAgree xs ys →
      itemsAgree (markBatch markV2 keys indexes xs)
        (markBatch markV1 keys indexes ys) := by
  intro indexes
  induction indexes with
  | nil => intro xs ys h; exact h
  | cons i rest ih =>
    intro xs ys h
    exact ih _ _ (itemsAgree_itemSet xs ys (keyAt keys i) h)

/-- Bisimulation relation between a v2 run state and a v1 run state: items
agree observationally, and every other component is equal. -/
def StRel (s2 s1 : SyncState) : Prop :=
  itemsAgree s2.items s1.items ∧ s2.success = s1.success ∧
    s2.calls = s1.calls ∧ s2.saveCount = s1.saveCount ∧
    s2.outcomes = s1.outcomes

theorem stepBatch_bisim (env : SyncEnv) (keys : List String)
    (s2 s1 : SyncState) (b : List Nat) (h : StRel s2 s1) :
    StRel (stepBatch markV2 env keys s2 b) (stepBatch markV1 env keys s1 b) := by
  obtain ⟨hag, hsu, hca, hsa, hou⟩ := h
  have hrec : ∀ i : Nat,
      recOnChain s2.items (keyAt keys i) = recOnChain s1.items (keyAt keys i) :=
    fun i => (itemsAgree_rec _ _ hag _).1
  have hcall : batchCall s2.items keys b = batchCall s1.items keys b := by
    have hconf : b.map (fun i =>
        (recLink s2.items (keyAt keys i), recName s2.items (keyAt keys i))) =
        b.map (fun i =>
        (recLink s1.items (keyAt keys i), recName s1.items (keyAt keys i))) := by
      apply List.map_congr_left
      intro i _
      have h := itemsAgree_rec s2.items s1.items hag (keyAt keys i)
      rw [h.2.1, h.2.2]
    unfold batchCall
    rw [hconf]
  by_cases hp : ∀ i ∈ b, recOnChain s2.items (keyAt keys i) = true
  · have hp1 : ∀ i ∈ b, recOnChain s1.items (keyAt keys i) = true :=
      fun i hi => (hrec i).symm.trans (hp i hi)
    rw [stepBatch_skip markV2 env keys s2 b hp,
      stepBatch_skip markV1 env keys s1 b hp1]
    exact ⟨hag, hsu, hca, hsa, by rw [hou]⟩
  · have hp1 : ¬ ∀ i ∈ b, recOnChain s1.items (keyAt keys i) = true :=
      fun hc => hp (fun i hi => (hrec i).trans (hc i hi))
    cases hr : env.rpcOk s2.calls.length with
    | false =>
      have hr1 : env.rpcOk s1.calls.length = false := by rw [← hca]; exact hr
      rw [stepBatch_rpcFail markV2 env keys s2 b hp hr,
        stepBatch_rpcFail markV1 env keys s1 b hp1 hr1]
      exact ⟨hag, rfl, by rw [hca, hcall], hsa, by rw [hou]⟩
    | true =>
      have hr1 : env.rpcOk s1.calls.length = true := by rw [← hca]; exact hr
      cases hs : env.saveOk s2.saveCount with
      | true =>
        have hs1 : env.saveOk s1.saveCount = true := by rw [← hsa]; exact hs
        rw [stepBatch_commit markV2 env keys s2 b hp hr hs,
          stepBatch_commit markV1 env keys s1 b hp1 hr1 hs1]
        exact ⟨itemsAgree_markBatch keys b _ _ hag, hsu,
          by rw [hca, hcall], by rw [hsa], by rw [hou]⟩
      | false =>
        have hs1 : env.saveOk s1.saveCount = false := by rw [← hsa]; exact hs
        rw [stepBatch_saveFail markV2 env keys s2 b hp hr hs,
          stepBatch_saveFail markV1 env keys s1 b hp1 hr1 hs1]
        exact ⟨itemsAgree_markBatch keys b _ _ hag, rfl,
          by rw [hca, hcall], by rw [hsa], by rw [hou]⟩

theorem syncItems_bisim (env : SyncEnv) (items : Items) :
    StRel (syncItems markV2 env items) (syncItems markV1 env items) := by
  rw [syncItems_eq, syncItems_eq]
  unfold syncBatches
  exact foldl_rel StRel (stepBatch markV2 env (keysOf items))
    (stepBatch markV1 env (keysOf items)) (innerBatches items.length)
    (initState items) (initState items)
    (fun s2 s1 b _ h => stepBatch_bisim env (keysOf items) s2 s1 b h)
    ⟨rfl, rfl, rfl, rfl, rfl⟩

/-!
## Wrapper characterizations -/

theorem addConfigLines_noProgram (env : SyncEnv) (auth : Option String)
    (itemsO : Option Items) :
    addConfigLines env ⟨none, auth, itemsO⟩ =
      ⟨initState [], RunOutcome.missingProgramConfig⟩ := rfl

theorem addConfigLines_noItems (env : SyncEnv) (prog : String)
    (auth : Option String) :
    addConfigLines env ⟨some prog, auth, none⟩ =
      ⟨initState [], RunOutcome.itemsUndefined⟩ := rfl

theorem addConfigLines_some (env : SyncEnv) (prog : String)
    (auth : Option String) (items : Items) :
    addConfigLines env ⟨some prog, auth, some items⟩ =
      if env.saveOk (syncItems markV2 env items).saveCount
      then ⟨{ syncItems markV2 env items with
              saveCount := (syncItems markV2 env items).saveCount + 1 },
            RunOutcome.report (syncItems markV2 env items).success⟩
      else ⟨{ syncItems markV2 env items with
              saveCount := (syncItems markV2 env items).saveCount + 1 },
            RunOutcome.finalSaveFailed⟩ := rfl

theorem addConfigLinesV1_noProgram (env : SyncEnv) (auth : Option String)
    (itemsO : Option Items) :
    addConfigLinesV1 env ⟨none, auth, itemsO⟩ =
      ⟨initState [], RunOutcome.missingProgramConfig⟩ := rfl

theorem addConfigLinesV1_noItems (env : SyncEnv) (prog : String)
    (auth : Option String) :
    addConfigLinesV1 env ⟨some prog, auth, none⟩ =
      ⟨initState [], RunOutcome.itemsUndefined⟩ := rfl

theorem addConfigLinesV1_some (env : SyncEnv) (prog : String)
    (auth : Option String) (items : Items) :
    addConfigLinesV1 env ⟨some prog, auth, some items⟩ =
      if env.saveOk (syncItems markV1 env items).saveCount
      then ⟨{ syncItems markV1 env items with
              saveCount := (syncItems markV1 env items).saveCount + 1 },
            RunOutcome.report (syncItems markV1 env items).success⟩
      else ⟨{ syncItems markV1 env items with
              saveCount := (syncItems markV1 env items).saveCount + 1 },
            RunOutcome.finalSaveFailed⟩ := rfl

/-!
## Concrete fixtures -/

/-- All remote calls and saves succeed. -/
def envAll : SyncEnv := ⟨fun _ => true, fun _ => true⟩

/-- Every remote call fails (saves irrelevant). -/
def envRpcFail : SyncEnv := ⟨fun _ => false, fun _ => true⟩

/-- Remote calls succeed; every `saveCache` throws. -/
def envSaveFail : SyncEnv := ⟨fun _ => true, fun _ => false⟩

/-- Remote call number 2 (the third of the run) fails, the rest succeed. -/
def envOneFail : SyncEnv := ⟨fun c => decide (c ≠ 2), fun _ => true⟩

/-- Only remote calls 0 and 4 succeed: three failures in a five-call run. -/
def envThreeFail : SyncEnv := ⟨fun c => decide (c = 0 ∨ c = 4), fun _ => true⟩

def mkItem (i : Nat) (oc : Bool) (vr : Option Bool) : String × ItemRecord :=
  (toString i, ⟨"name" ++ toString i, "link" ++ toString i, oc, vr⟩)

/-- Ten records, indices `[0,3)` already committed, `[3,10)` pending: the
crash-resumption scenario. -/
def ex10 : Items := (List.range 10).map (fun i => mkItem i (decide (i < 3)) none)

/-- Twenty pending records: two inner batches. -/
def ex20 : Items := (List.range 20).map (fun i => mkItem i false none)

/-- Fifty pending records: five inner batches. -/
def ex50 : Items := (List.range 50).map (fun i => mkItem i false none)

/-- One pending record whose `verifyRun` flag is currently `true`. -/
def ex1v : Items := [("0", ⟨"n0", "l0", false, some true⟩)]

/-- One record already on-chain. -/
def exOn1 : Items := [("0", ⟨"n0", "l0", true, none⟩)]

def cache20 : Cache := ⟨some "cm", some "auth", some ex20⟩

def cache50 : Cache := ⟨some "cm", some "auth", some ex50⟩

/-!
## The claims -/

/-- C1: for every `totalCount`, partitioning `[0, totalCount)` with outer
chunk size 1000 and inner batch size 10 yields inner batches whose
concatenation (in order) is exactly `[0, totalCount)` — no gaps, no overlaps,
order preserved — with every inner batch non-empty of length at most 10 and
every outer chunk of total length at most 1000; for `totalCount = 25` it
yields exactly one outer chunk with three inner batches of lengths 10, 10
and 5. -/
theorem c1_partition_correct :
    ∀ total : Nat,
      ((partition total 1000 10).flatten).flatten = List.range total
      ∧ (∀ oc ∈ partition total 1000 10, ∀ b ∈ oc, b.length ≤ 10 ∧ b ≠ [])
      ∧ (∀ oc ∈ partition total 1000 10, oc.flatten.length ≤ 1000)
      ∧ partition 25 1000 10 =
          [[[0, 1, 2, 3, 4, 5, 6, 7, 8, 9],
            [10, 11, 12, 13, 14, 15, 16, 17, 18, 19],
            [20, 21, 22, 23, 24]]] := by
  intro total
  refine ⟨?_, ?_, ?_, by decide⟩
  · show (innerBatches total).flatten = _
    exact innerBatches_flatten total
  · intro oc hoc b hb
    unfold partition at hoc
    obtain ⟨c, hc, rfl⟩ := List.mem_map.mp hoc
    exact ⟨length_le_of_mem_chunks 10 (by decide) c b hb,
      ne_nil_of_mem_chunks 10 (by decide) c b hb⟩
  · intro oc hoc
    unfold partition at hoc
    obtain ⟨c, hc, rfl⟩ := List.mem_map.mp hoc
    rw [chunks_flatten 10 (by decide) c]
    exact length_le_of_mem_chunks 1000 (by decide) _ c hc

/-- Witness for C1 at `totalCount = 25`. -/
theorem c1_partition_correct_witness :
    ((partition 25 1000 10).flatten).flatten = List.range 25
    ∧ (([20, 21, 22, 23, 24] : List Nat).length ≤ 10
        ∧ ([20, 21, 22, 23, 24] : List Nat) ≠ [])
    ∧ ([[0, 1, 2, 3, 4, 5, 6, 7, 8, 9],
        [10, 11, 12, 13, 14, 15, 16, 17, 18, 19],
        [20, 21, 22, 23, 24]] : List (List Nat)).flatten.length ≤ 1000 :=
  ⟨(c1_partition_correct 25).1,
   (c1_partition_correct 25).2.1
     [[0, 1, 2, 3, 4, 5, 6, 7, 8, 9],
      [10, 11, 12, 13, 14, 15, 16, 17, 18, 19],
      [20, 21, 22, 23, 24]] (by decide) [20, 21, 22, 23, 24] (by decide),
   (c1_partition_correct 25).2.2.1
     [[0, 1, 2, 3, 4, 5, 6, 7, 8, 9],
      [10, 11, 12, 13, 14, 15, 16, 17, 18, 19],
      [20, 21, 22, 23, 24]] (by decide)⟩

/-- C2: sync is idempotent.  (i) A batch whose every index is already
`onChain` performs no remote call and changes nothing except recording a
`skipped` outcome.  (ii) Re-running the sync right after a run in which every
remote call and save succeeded performs zero remote calls, reports success,
and counts zero failed batches. -/
theorem c2_idempotent :
    (∀ (mark : ItemRecord → ItemRecord) (env : SyncEnv) (keys : List String)
        (st : SyncState) (indexes : List Nat),
      (∀ i ∈ indexes, recOnChain st.items (keyAt keys i) = true) →
      stepBatch mark env keys st indexes =
        { st with outcomes := st.outcomes ++ [BatchOutcome.skipped] })
    ∧ (∀ (env env' : SyncEnv) (items : Items),
      (∀ c, env.rpcOk c = true) →
      (syncItems markV2 env' (syncItems markV2 env items).items).calls = []
      ∧ (syncItems markV2 env' (syncItems markV2 env items).items).success = true
      ∧ failedBatches (syncItems markV2 env' (syncItems markV2 env items).items)
          = 0) := by
  constructor
  · intro mark env keys st indexes h
    exact stepBatch_skip mark env keys st indexes h
  · intro env env' items hrpc
    have hkeysOf : keysOf (syncItems markV2 env items).items = keysOf items := by
      rw [syncItems_eq]
      exact keysOf_syncBatches markV2 env (keysOf items) (initState items)
        (innerBatches items.length)
    have hlen : (syncItems markV2 env items).items.length = items.length := by
      have h1 : (keysOf (syncItems markV2 env items).items).length
          = (keysOf items).length := by rw [hkeysOf]
      simpa [keysOf, List.length_map] using h1
    have hmarked : ∀ i, i < items.length →
        recOnChain (syncItems markV2 env items).items (keyAt (keysOf items) i)
          = true := by
      intro i hi
      rw [syncItems_eq]
      apply syncBatches_marks markV2 (fun r => rfl) env hrpc (keysOf items)
        (innerBatches items.length) (initState items) rfl i
      · rw [innerBatches_flatten]
        exact List.mem_range.mpr hi
      · simpa [keysOf, List.length_map] using hi
    rw [syncItems_eq markV2 env' (syncItems markV2 env items).items]
    have hcond : ∀ i ∈ (innerBatches (syncItems markV2 env items).items.length).flatten,
        recOnChain (initState (syncItems markV2 env items).items).items
          (keyAt (keysOf (syncItems markV2 env items).items) i) = true := by
      intro i hi
      rw [innerBatches_flatten] at hi
      have hi' : i < items.length := by
        rw [← hlen]; exact List.mem_range.mp hi
      show recOnChain (syncItems markV2 env items).items
        (keyAt (keysOf (syncItems markV2 env items).items) i) = true
      rw [hkeysOf]
      exact hmarked i hi'
    rw [syncBatches_all_skip markV2 env'
      (keysOf (syncItems markV2 env items).items)
      (innerBatches (syncItems markV2 env items).items.length)
      (initState (syncItems markV2 env items).items) hcond]
    refine ⟨rfl, rfl, ?_⟩
    unfold failedBatches
    apply List.countP_eq_zero.mpr
    intro o ho
    rcases List.mem_append.mp ho with h | h
    · exact absurd h (List.not_mem_nil o)
    · obtain ⟨b, _, hbo⟩ := List.mem_map.mp h
      rw [← hbo]
      decide

/-- Witness for C2: a batch over an already-committed record is skipped, and
a second run after a fully successful run over `ex10` is silent. -/
theorem c2_idempotent_witness :
    (stepBatch markV2 envAll ["0"] (initState exOn1) [0] =
      { initState exOn1 with
        outcomes := (initState exOn1).outcomes ++ [BatchOutcome.skipped] })
    ∧ ((syncItems markV2 envAll (syncItems markV2 envAll ex10).items).calls = []
      ∧ (syncItems markV2 envAll (syncItems markV2 envAll ex10).items).success
          = true
      ∧ failedBatches
          (syncItems markV2 envAll (syncItems markV2 envAll ex10).items) = 0) :=
  ⟨c2_idempotent.1 markV2 envAll ["0"] (initState exOn1) [0] (by decide),
   c2_idempotent.2 envAll envAll ex10 (fun c => rfl)⟩

/-- C3 counterexample: with the crash-resumption cache `ex10` (indices
`[0,3)` on-chain, `[3,10)` pending) the single remote commit call covers the
whole batch `[0,10)`, so it is false that no commit call includes an index
from `[0,3)`. -/
theorem c3_counterexample :
    ¬ (∀ c ∈ (syncItems markV2 envAll ex10).calls, ∀ i ∈ c.indexes,
        ¬ i < 3) := by decide

/-- C3 amended: re-running sync on `ex10` issues exactly one commit call, and
that call resubmits the full 10-index batch `[0,10)` (a batch with any
pending index is sent in full, already-committed leading indices included,
starting at key "0"); afterwards every record is on-chain and the run reports
success. -/
theorem c3_amended_resubmits_full_batch :
    (syncItems markV2 envAll ex10).calls.map (fun c => c.indexes)
      = [List.range 10]
    ∧ (syncItems markV2 envAll ex10).calls.map (fun c => c.startKey) = ["0"]
    ∧ (∀ k ∈ keysOf ex10,
        recOnChain (syncItems markV2 envAll ex10).items k = true)
    ∧ (syncItems markV2 envAll ex10).success = true := by decide

/-- C4 counterexample: two runs over the same 50-record cache — one with a
single failed batch, one with three failed batches — terminate with the very
same observable report (`Done. Successful = false`): the outcome does not
surface per-batch counts. -/
theorem c4_counterexample :
    (addConfigLines envOneFail cache50).outcome
        = (addConfigLines envThreeFail cache50).outcome
    ∧ (addConfigLines envOneFail cache50).outcome = RunOutcome.report false
    ∧ failedBatches (addConfigLines envOneFail cache50).state = 1
    ∧ failedBatches (addConfigLines envThreeFail cache50).state = 3 := by
  refine ⟨?_, ?_, ?_, ?_⟩ <;> decide

/-- C4 amended: the run's final report is a single boolean
(`addConfigSuccessful`, logged as `Done. Successful = ...`), not per-batch
counts; that boolean is true exactly when zero inner batches failed. -/
theorem c4_amended_report_is_boolean :
    ∀ (env : SyncEnv) (cache : Cache) (st : SyncState) (b : Bool),
      addConfigLines env cache = ⟨st, RunOutcome.report b⟩ →
      (b = true ↔ failedBatches st = 0) := by
  intro env cache st b h
  obtain ⟨prog, auth, itemsO⟩ := cache
  cases prog with
  | none =>
    rw [addConfigLines_noProgram] at h
    exact absurd (congrArg RunResult.outcome h) (by simp)
  | some prog =>
    cases itemsO with
    | none =>
      rw [addConfigLines_noItems] at h
      exact absurd (congrArg RunResult.outcome h) (by simp)
    | some items =>
      rw [addConfigLines_some] at h
      by_cases hs : env.saveOk (syncItems markV2 env items).saveCount = true
      · rw [if_pos hs] at h
        injection h with h1 h2
        have hb' : (syncItems markV2 env items).success = b := by
          injection h2
        have hfb : failedBatches st = failedBatches (syncItems markV2 env items) := by
          rw [← h1]
          rfl
        have hsuc : (syncItems markV2 env items).success =
            !((syncItems markV2 env items).outcomes.any (fun o => o.isFailure)) := by
          rw [syncItems_eq]
          exact success_syncBatches markV2 env (keysOf items) (initState items)
            (innerBatches items.length) rfl
        rw [hfb, ← hb', hsuc]
        unfold failedBatches
        rw [Bool.not_eq_true', List.any_eq_false]
        exact Iff.symm List.countP_eq_zero
      · rw [if_neg hs] at h
        exact absurd (congrArg RunResult.outcome h) (by simp)

/-- Witness for C4 amended at a concrete successful run. -/
theorem c4_amended_report_is_boolean_witness :
    ((syncItems markV2 envAll ex10).success = true
      ↔ failedBatches { syncItems markV2 envAll ex10 with
          saveCount := (syncItems markV2 envAll ex10).saveCount + 1 } = 0) :=
  c4_amended_report_is_boolean envAll ⟨some "cm", some "auth", some ex10⟩
    { syncItems markV2 envAll ex10 with
      saveCount := (syncItems markV2 envAll ex10).saveCount + 1 }
    (syncItems markV2 envAll ex10).success (by rw [addConfigLines_some]; rfl)

/-- C5: per-batch failure atomicity and continuation.  (i) When a pending
batch's remote call fails, the items are left exactly as they were, no save
is attempted, the run is flagged unsuccessful and the batch is recorded as
`rpcFailed`.  (ii) The run still processes every inner batch: the number of
recorded outcomes always equals the number of inner batches, whatever the
failures. -/
theorem c5_failure_isolated_and_run_continues :
    (∀ (mark : ItemRecord → ItemRecord) (env : SyncEnv) (keys : List String)
        (st : SyncState) (indexes : List Nat),
      (¬ ∀ i ∈ indexes, recOnChain st.items (keyAt keys i) = true) →
      env.rpcOk st.calls.length = false →
      (stepBatch mark env keys st indexes).items = st.items
      ∧ (stepBatch mark env keys st indexes).success = false
      ∧ (stepBatch mark env keys st indexes).saveCount = st.saveCount
      ∧ (stepBatch mark env keys st indexes).outcomes
          = st.outcomes ++ [BatchOutcome.rpcFailed])
    ∧ (∀ (mark : ItemRecord → ItemRecord) (env : SyncEnv) (items : Items),
      (syncItems mark env items).outcomes.length
        = (innerBatches items.length).length) := by
  constructor
  · intro mark env keys st indexes hp hr
    rw [stepBatch_rpcFail mark env keys st indexes hp hr]
    exact ⟨rfl, rfl, rfl, rfl⟩
  · intro mark env items
    rw [syncItems_eq, outcomes_syncBatches_length]
    exact Nat.zero_add _

/-- Witness for C5: batch `[3]` of `ex10` is pending, its call fails under
`envRpcFail`, and a full run of `ex10` has exactly one inner batch. -/
theorem c5_failure_isolated_and_run_continues_witness :
    ((stepBatch markV2 envRpcFail (keysOf ex10) (initState ex10) [3]).items
        = (initState ex10).items
      ∧ (stepBatch markV2 envRpcFail (keysOf ex10) (initState ex10) [3]).success
          = false
      ∧ (stepBatch markV2 envRpcFail (keysOf ex10) (initState ex10) [3]).saveCount
          = (initState ex10).saveCount
      ∧ (stepBatch markV2 envRpcFail (keysOf ex10) (initState ex10) [3]).outcomes
          = (initState ex10).outcomes ++ [BatchOutcome.rpcFailed])
    ∧ (syncItems markV2 envRpcFail ex10).outcomes.length
        = (innerBatches ex10.length).length :=
  ⟨c5_failure_isolated_and_run_continues.1 markV2 envRpcFail (keysOf ex10)
      (initState ex10) [3] (by decide) rfl,
   c5_failure_isolated_and_run_continues.2 markV2 envRpcFail ex10⟩

/-- C6: the collection-creation guards.  With a program handle already in the
cache the action aborts with the "program existed previously" error; with an
empty item map it aborts with the "no items in cacheContent" error; with no
item map at all it aborts with the TypeError raised by `Object.keys`.  In
every guard case zero remote create calls are made, zero saves happen, and
the cache is returned unchanged. -/
theorem c6_create_guards :
    ∀ (createOk : Bool) (newHandle authority : String) (cache : Cache),
      (cache.program.isSome = true →
        create_candy_machine createOk newHandle authority cache =
          ⟨cache, 0, 0, some CreateError.programExists⟩)
      ∧ (cache.program = none → cache.items = some [] →
        create_candy_machine createOk newHandle authority cache =
          ⟨cache, 0, 0, some CreateError.noItems⟩)
      ∧ (cache.program = none → cache.items = none →
        create_candy_machine createOk newHandle authority cache =
          ⟨cache, 0, 0, some CreateError.itemsUndefined⟩) := by
  intro ok nh auth cache
  refine ⟨?_, ?_, ?_⟩
  · intro h
    unfold create_candy_machine
    rw [if_pos h]
  · intro hp hi
    unfold create_candy_machine
    rw [if_neg (by rw [hp]; simp), hi]
    rfl
  · intro hp hi
    unfold create_candy_machine
    rw [if_neg (by rw [hp]; simp), hi]

/-- Witness for C6 at concrete caches. -/
theorem c6_create_guards_witness :
    (create_candy_machine true "cm" "auth" ⟨some "old", none, some ex10⟩ =
      ⟨⟨some "old", none, some ex10⟩, 0, 0, some CreateError.programExists⟩)
    ∧ (create_candy_machine true "cm" "auth" ⟨none, none, some []⟩ =
      ⟨⟨none, none, some []⟩, 0, 0, some CreateError.noItems⟩)
    ∧ (create_candy_machine true "cm" "auth" ⟨none, none, none⟩ =
      ⟨⟨none, none, none⟩, 0, 0, some CreateError.itemsUndefined⟩) :=
  ⟨(c6_create_guards true "cm" "auth" ⟨some "old", none, some ex10⟩).1 rfl,
   (c6_create_guards true "cm" "auth" ⟨none, none, some []⟩).2.1 rfl rfl,
   (c6_create_guards true "cm" "auth" ⟨none, none, none⟩).2.2 rfl rfl⟩

/-- C7 counterexample: with every `saveCache` failing, the run over the
two-batch cache `cache20` does not stop at the first save failure: it makes a
second remote call, records both batches as `saveFailed`, and only the final
(post-loop) save failure propagates — no immediate fatal abort. -/
theorem c7_counterexample :
    ¬ ((addConfigLines envSaveFail cache20).state.calls.length ≤ 1)
    ∧ (addConfigLines envSaveFail cache20).state.outcomes
        = [BatchOutcome.saveFailed, BatchOutcome.saveFailed]
    ∧ (addConfigLines envSaveFail cache20).outcome
        = RunOutcome.finalSaveFailed := by
  refine ⟨?_, ?_, ?_⟩ <;> decide

/-- C7 amended: a save failure inside the batch loop is caught by the same
per-batch handler as a remote failure — the already-marked items stay marked,
the success flag drops to false, a `saveFailed` outcome is recorded, and the
run continues through every remaining batch; only a failure of the final
post-loop save propagates to the caller as an error. -/
theorem c7_amended_save_failure_nonfatal :
    (∀ (mark : ItemRecord → ItemRecord) (env : SyncEnv) (keys : List String)
        (st : SyncState) (indexes : List Nat),
      (¬ ∀ i ∈ indexes, recOnChain st.items (keyAt keys i) = true) →
      env.rpcOk st.calls.length = true →
      env.saveOk st.saveCount = false →
      stepBatch mark env keys st indexes =
        { items := markBatch mark keys indexes st.items
          success := false
          calls := st.calls ++ [batchCall st.items keys indexes]
          saveCount := st.saveCount + 1
          outcomes := st.outcomes ++ [BatchOutcome.saveFailed] })
    ∧ (∀ (env : SyncEnv) (items : Items),
      (syncItems markV2 env items).outcomes.length
        = (innerBatches items.length).length)
    ∧ (∀ (env : SyncEnv) (prog : String) (auth : Option String) (items : Items),
      env.saveOk (syncItems markV2 env items).saveCount = false →
      (addConfigLines env ⟨some prog, auth, some items⟩).outcome
        = RunOutcome.finalSaveFailed) := by
  refine ⟨?_, ?_, ?_⟩
  · intro mark env keys st indexes hp hr hs
    exact stepBatch_saveFail mark env keys st indexes hp hr hs
  · intro env items
    rw [syncItems_eq, outcomes_syncBatches_length]
    exact Nat.zero_add _
  · intro env prog auth items hs
    rw [addConfigLines_some, if_neg (by rw [hs]; exact Bool.false_ne_true)]

/-- Witness for C7 amended: the first batch of `ex20` under failing saves. -/
theorem c7_amended_save_failure_nonfatal_witness :
    (stepBatch markV2 envSaveFail (keysOf ex20) (initState ex20) [0, 1] =
      { items := markBatch markV2 (keysOf ex20) [0, 1] (initState ex20).items
        success := false
        calls := (initState ex20).calls
          ++ [batchCall (initState ex20).items (keysOf ex20) [0, 1]]
        saveCount := (initState ex20).saveCount + 1
        outcomes := (initState ex20).outcomes ++ [BatchOutcome.saveFailed] })
    ∧ (syncItems markV2 envSaveFail ex20).outcomes.length
        = (innerBatches ex20.length).length
    ∧ (addConfigLines envSaveFail ⟨some "cm", some "auth", some ex20⟩).outcome
        = RunOutcome.finalSaveFailed :=
  ⟨c7_amended_save_failure_nonfatal.1 markV2 envSaveFail (keysOf ex20)
      (initState ex20) [0, 1] (by decide) rfl rfl,
   c7_amended_save_failure_nonfatal.2.1 envSaveFail ex20,
   c7_amended_save_failure_nonfatal.2.2 envSaveFail "cm" (some "auth") ex20 rfl⟩

/-- C8: `onChain` is monotone under the sync engine.  Both engines' marking
writes `onChain := true` (every assignment the engine makes writes true), and
for every key whose record is on-chain before a run, it is still on-chain
after the run, under either engine version and any environment. -/
theorem c8_onChain_monotone :
    (∀ r, (markV2 r).onChain = true)
    ∧ (∀ r, (markV1 r).onChain = true)
    ∧ (∀ (env : SyncEnv) (items : Items) (k : String),
        recOnChain items k = true →
        recOnChain (syncItems markV2 env items).items k = true)
    ∧ (∀ (env : SyncEnv) (items : Items) (k : String),
        recOnChain items k = true →
        recOnChain (syncItems markV1 env items).items k = true) := by
  refine ⟨fun r => rfl, fun r => rfl, ?_, ?_⟩
  all_goals
    intro env items k h
    rw [syncItems_eq, recOnChain_eq_recProp]
    exact recProp_syncBatches_stable _ _ (fun r _ => rfl) env (keysOf items)
      (initState items) (innerBatches items.length) k
      (by rw [← recOnChain_eq_recProp]; exact h)

/-- Witness for C8: the already-committed record of `exOn1` stays committed
through a run of either engine. -/
theorem c8_onChain_monotone_witness :
    recOnChain (syncItems markV2 envAll exOn1).items "0" = true
    ∧ recOnChain (syncItems markV1 envAll exOn1).items "0" = true :=
  ⟨c8_onChain_monotone.2.2.1 envAll exOn1 "0" (by decide),
   c8_onChain_monotone.2.2.2 envAll exOn1 "0" (by decide)⟩

/-- C9 counterexample: the single record of `ex1v` is committed for the first
time (it was never on-chain, same collection throughout), yet the v2 engine
changes its `verifyRun` flag (from `some true` to `some false`) — it is not
left unchanged. -/
theorem c9_counterexample :
    recProj ItemRecord.verifyRun (syncItems markV2 envAll ex1v).items "0"
      ≠ recProj ItemRecord.verifyRun ex1v "0" := by decide

/-- C9 amended: the v2 engine clears `verifyRun` to `false` unconditionally
for every record of every successfully committed batch — there is no
"different previous collection" test anywhere; the v1 engine never touches
`verifyRun` at all. -/
theorem c9_amended_verifyRun_cleared_unconditionally :
    (∀ (env : SyncEnv) (keys : List String) (st : SyncState)
        (indexes : List Nat) (k : String),
      (¬ ∀ i ∈ indexes, recOnChain st.items (keyAt keys i) = true) →
      env.rpcOk st.calls.length = true →
      k ∈ indexes.map (keyAt keys) → k ∈ keysOf st.items →
      recProj ItemRecord.verifyRun
        (stepBatch markV2 env keys st indexes).items k = some (some false))
    ∧ (∀ (env : SyncEnv) (items : Items) (k : String),
      recProj ItemRecord.verifyRun (syncItems markV1 env items).items k
        = recProj ItemRecord.verifyRun items k) := by
  constructor
  · intro env keys st indexes k hp hr hb hk
    cases hs : env.saveOk st.saveCount with
    | true =>
      rw [stepBatch_commit markV2 env keys st indexes hp hr hs]
      exact recProj_markBatch_establish ItemRecord.verifyRun markV2 (some false)
        (fun r => rfl) keys indexes st.items k hb hk
    | false =>
      rw [stepBatch_saveFail markV2 env keys st indexes hp hr hs]
      exact recProj_markBatch_establish ItemRecord.verifyRun markV2 (some false)
        (fun r => rfl) keys indexes st.items k hb hk
  · intro env items k
    rw [syncItems_eq]
    exact recProj_syncBatches_frame ItemRecord.verifyRun markV1 (fun r => rfl)
      env (keysOf items) (initState items) (innerBatches items.length) k

/-- Witness for C9 amended: committing the batch `[0]` of `ex1v` clears its
`verifyRun`, and a v1 run leaves `verifyRun` of `ex1v` unchanged. -/
theorem c9_amended_verifyRun_cleared_unconditionally_witness :
    recProj ItemRecord.verifyRun
        (stepBatch markV2 envAll (keysOf ex1v) (initState ex1v) [0]).items "0"
      = some (some false)
    ∧ recProj ItemRecord.verifyRun (syncItems markV1 envAll ex1v).items "0"
        = recProj ItemRecord.verifyRun ex1v "0" :=
  ⟨c9_amended_verifyRun_cleared_unconditionally.1 envAll (keysOf ex1v)
      (initState ex1v) [0] "0" (by decide) rfl (by decide) (by decide),
   c9_amended_verifyRun_cleared_unconditionally.2 envAll ex1v "0"⟩

/-- C10: the two `addConfigLines` implementations are equivalent in batch
selection and request building: on the same loaded cache and the same remote
environment they make exactly the same remote calls — same inner-batch index
ranges, in the same order, with the same `(startIndex, (uri, name) pairs)`
request — and terminate with the same observable outcome. -/
theorem c10_v1_v2_equivalent :
    ∀ (env : SyncEnv) (cache : Cache),
      (addConfigLines env cache).state.calls
        = (addConfigLinesV1 env cache).state.calls
      ∧ (addConfigLines env cache).outcome
        = (addConfigLinesV1 env cache).outcome := by
  intro env cache
  obtain ⟨prog, auth, itemsO⟩ := cache
  cases prog with
  | none =>
    rw [addConfigLines_noProgram, addConfigLinesV1_noProgram]
    exact ⟨rfl, rfl⟩
  | some prog =>
    cases itemsO with
    | none =>
      rw [addConfigLines_noItems, addConfigLinesV1_noItems]
      exact ⟨rfl, rfl⟩
    | some items =>
      obtain ⟨hag, hsu, hca, hsa, hou⟩ := syncItems_bisim env items
      rw [addConfigLines_some, addConfigLinesV1_some, ← hsa]
      by_cases hs : env.saveOk (syncItems markV2 env items).saveCount = true
      · rw [if_pos hs, if_pos hs]
        exact ⟨hca, by rw [hsu]⟩
      · rw [if_neg hs, if_neg hs]
        exact ⟨hca, rfl⟩
